import Mathlib

/-!
Shallow embedding of `validate_packages.py`, the validation script of the
rainmeas package registry, together with theorems settling the specification
claims about it.

Modelling conventions:
* JSON values parsed by `json.load` are modelled by `JVal`; Python dicts
  appear as association lists with string keys (a real Python dict has unique
  keys, so `Nodup` hypotheses mark the places where that matters, and a key
  lookup takes the first binding).
* The network effect of `requests.head` is modelled by an oracle mapping each
  download URL value to the observed outcome (`HeadOutcome`), covering every
  path the script catches: an HTTP response with some status code, a timeout,
  and any other request exception.
* Code paths that raise an uncaught Python exception are modelled by
  `Option`, with `none` for the uncaught error: calling `.keys()` on a
  non-dict `versions` value, and the `TypeError` that the membership test
  `latest not in versions` raises when the `latest` value is unhashable
  (a JSON array or object).
* Filesystem inputs of `main` are explicit parameters: the parse result of
  `index.json` (its key list), whether the packages directory exists, the
  directory listing, and the per-file load results.
-/

namespace Rainmeas

/-- JSON values as produced by Python's `json.load`.  Object fields are kept
in insertion order, as a Python dict does. -/
inductive JVal where
  | str (s : String)
  | num (n : Int)
  | bool (b : Bool)
  | null
  | arr (xs : List JVal)
  | obj (fields : List (String × JVal))

/-- Rendering of a JSON value inside a Python f-string.  Scalar values follow
Python's `str`; the exact rendering of containers is irrelevant to every
message comparison proved below (only whole leading literal segments of
messages are compared), so containers get fixed placeholders. -/
def jvalText : JVal → String
  | .str s => s
  | .num n => toString n
  | .bool b => if b then "True" else "False"
  | .null => "None"
  | .arr _ => "[...]"
  | .obj _ => "\x7b...\x7d"

/-- Rendering of the result of Python's `dict.get` inside an f-string:
a missing key prints as `None`. -/
def pyGetText : Option JVal → String
  | some v => jvalText v
  | none => "None"

/-- Python `x in d` for a dict `d` with string keys.  For hashable values
the test yields a Bool: a string is a member iff it equals one of the keys,
and a number, boolean or `None` never equals a (string) key, so membership
is false.  For unhashable values -- JSON arrays and objects -- Python raises
an uncaught `TypeError` before any comparison, modelled as `none`. -/
def pyInKeys (v : JVal) (d : List (String × JVal)) : Option Bool :=
  match v with
  | .str s => some (d.any (fun kv => kv.1 == s))
  | .num _ => some false
  | .bool _ => some false
  | .null => some false
  | .arr _ => none
  | .obj _ => none

/-- Python `package_data.get("name") == package_name` where `package_name` is
a string: true iff the field is present, is a string, and equals it. -/
def nameFieldMatches (package_data : List (String × JVal)) (package_name : String) : Bool :=
  match List.lookup "name" package_data with
  | some (.str s) => s == package_name
  | _ => false

def required_fields : List String := ["name", "author", "description", "versions"]

def missingFieldMsg (field : String) : String :=
  "Missing required field: " ++ field

def nameMismatchMsg (nameVal : Option JVal) (package_name : String) : String :=
  "Package name \x27" ++ pyGetText nameVal ++ "\x27 doesn\x27t match filename \x27"
    ++ package_name ++ "\x27"

def versionsNotObjectMsg : String := "Versions must be an object"

def missingLatestFieldMsg : String := "Missing \x27latest\x27 field in versions"

def latestNotFoundMsg (latest : JVal) : String :=
  "Latest version \x27" ++ jvalText latest ++ "\x27 not found in versions"

/-- The first two blocks of `validate_package_structure`: the required-field
errors in field order, then the filename match check.  These run before the
`versions` checks and cannot raise. -/
def fieldAndNameErrors (package_name : String)
    (package_data : List (String × JVal)) : List String :=
  (required_fields.filter (fun field => (List.lookup field package_data).isNone)).map
      missingFieldMsg
    ++ (if nameFieldMatches package_data package_name then []
        else [nameMismatchMsg (List.lookup "name" package_data) package_name])

/-- The inner `latest` checks of `validate_package_structure`, for a
`versions` value known to be an object: the errors they contribute, or
`none` for the uncaught `TypeError` of `latest not in versions` when the
`latest` value is unhashable. -/
def latestErrors? (versions : List (String × JVal)) : Option (List String) :=
  match List.lookup "latest" versions with
  | some latest =>
      match pyInKeys latest versions with
      | some true => some []
      | some false => some [latestNotFoundMsg latest]
      | none => none
  | none => some [missingLatestFieldMsg]

/-- The `versions` block of `validate_package_structure`: the errors it
contributes, or `none` when the membership test raises. -/
def versionsErrors? (package_data : List (String × JVal)) : Option (List String) :=
  match List.lookup "versions" package_data with
  | none => some []
  | some (.obj versions) => latestErrors? versions
  | some _ => some [versionsNotObjectMsg]

/-- `validate_package_structure` from the script: required-field errors in
field order, then the filename match check, then the `versions` checks.
`none` models the uncaught `TypeError` Python raises at the
`latest not in versions` test when the `latest` value is an array or object;
the exception discards the errors accumulated so far and propagates to the
caller. -/
def validate_package_structure (package_name : String)
    (package_data : List (String × JVal)) : Option (List String) :=
  match versionsErrors? package_data with
  | none => none
  | some versionErrs =>
      some (fieldAndNameErrors package_name package_data ++ versionErrs)

/-- Outcome of the `requests.head` call on a download URL, as far as the
script can observe it: a response with a status code, a timeout exception,
or any other request exception carrying its printed detail. -/
inductive HeadOutcome where
  | response (statusCode : Nat)
  | timeout
  | requestException (detail : String)

def urlNotFoundMsg (version : String) : String :=
  "URL not found (404) for version " ++ version

def httpStatusMsg (statusCode : Nat) (version : String) : String :=
  "HTTP " ++ toString statusCode ++ " for version " ++ version

def timeoutMsg (version : String) : String :=
  "Timeout when checking download URL for version " ++ version

def genericNetworkMsg (version : String) (detail : String) : String :=
  "Error checking download URL for version " ++ version ++ ": " ++ detail

/-- `validate_version_download_url` from the script, with the HEAD request
replaced by the oracle. -/
def validate_version_download_url (oracle : JVal → HeadOutcome)
    (version : String) (download_url : JVal) : Bool × String :=
  match oracle download_url with
  | .response statusCode =>
      if statusCode == 200 then (true, "")
      else if statusCode == 404 then (false, urlNotFoundMsg version)
      else (false, httpStatusMsg statusCode version)
  | .timeout => (false, timeoutMsg version)
  | .requestException detail => (false, genericNetworkMsg version detail)

def missingDownloadMsg (version : String) : String :=
  "Version " ++ version ++ " missing download URL"

def invalidUrlMsg (package_name version message : String) : String :=
  "Invalid download URL for " ++ package_name ++ "@" ++ version ++ ": " ++ message

def legacyWarnMsg (version : String) : String :=
  "Version " ++ version ++ " is not an object (might be legacy format)"

def missingVersionsDataMsg : String := "Missing versions data"

/-- The body of the per-version loop of `validate_package_versions`: the
(errors, warnings) contribution of a single version entry. -/
def versionEntryResult (oracle : JVal → HeadOutcome) (package_name version : String)
    (version_data : JVal) : List String × List String :=
  match version_data with
  | .obj vd =>
      match List.lookup "download" vd with
      | none => ([missingDownloadMsg version], [])
      | some download_url =>
          match validate_version_download_url oracle version download_url with
          | (true, _) => ([], [])
          | (false, message) => ([invalidUrlMsg package_name version message], [])
  | _ => ([], [legacyWarnMsg version])

/-- The loop of `validate_package_versions` over the version entries, skipping
the reserved key `latest`, accumulating errors and warnings in order. -/
def versionsLoop (oracle : JVal → HeadOutcome) (package_name : String) :
    List (String × JVal) → List String × List String
  | [] => ([], [])
  | (version, version_data) :: rest =>
      let tail := versionsLoop oracle package_name rest
      if version == "latest" then tail
      else
        let entry := versionEntryResult oracle package_name version version_data
        (entry.1 ++ tail.1, entry.2 ++ tail.2)

/-- `validate_package_versions` from the script.  `none` models the uncaught
`AttributeError` the Python code raises when the `versions` value is present
but not a dict (it calls `.keys()` on it); the driver never reaches that case
because it only calls this after structure validation passed. -/
def validate_package_versions (oracle : JVal → HeadOutcome) (package_name : String)
    (package_data : List (String × JVal)) : Option (List String × List String) :=
  match List.lookup "versions" package_data with
  | none => some ([missingVersionsDataMsg], [])
  | some (.obj versions) => some (versionsLoop oracle package_name versions)
  | some _ => none

/-- The characters of the literal `".json"`. -/
def jsonPat : List Char := ['.', 'j', 's', 'o', 'n']

/-- Python `s.replace(".json", "")` on the character list of `s`: every
non-overlapping occurrence of `".json"` is removed, scanning left to right. -/
def stripJsonAll : List Char → List Char
  | '.' :: 'j' :: 's' :: 'o' :: 'n' :: rest => stripJsonAll rest
  | c :: rest => c :: stripJsonAll rest
  | [] => []

/-- `package_file.replace(".json", "")`, the package-name derivation the
script uses both in `validate_index_consistency` and in `main`. -/
def replaceJsonAll (s : String) : String := String.mk (stripJsonAll s.data)

def pkgInIndexNoFileMsg (package_name : String) : String :=
  "Package \x27" ++ package_name ++ "\x27 in index.json but no corresponding file in packages/"

def pkgFileNotInIndexMsg (package_file : String) : String :=
  "Package file \x27" ++ package_file ++ "\x27 not referenced in index.json"

/-- `validate_index_consistency` from the script: first the pass over the
index keys, then the pass over the package files. -/
def validate_index_consistency (indexKeys : List String)
    (package_files : List String) : List String :=
  (indexKeys.filter (fun package_name =>
        !package_files.contains (package_name ++ ".json"))).map pkgInIndexNoFileMsg
    ++ (package_files.filter (fun package_file =>
        !indexKeys.contains (replaceJsonAll package_file))).map pkgFileNotInIndexMsg

/-- Python `f.endswith(".json")`. -/
def endsWithJson (f : String) : Bool := jsonPat.isSuffixOf f.data

/-- Modelled from the claim wording, for comparison with `replaceJsonAll`:
the filename with only a trailing `".json"` removed (the "stem"). -/
def stripTrailingJson (f : String) : String :=
  if jsonPat.isSuffixOf f.data then String.mk (f.data.take (f.data.length - 5)) else f

/-- The per-package part of the loop in `main`: a failed load counts one
error; a structure validation that raises (uncaught `TypeError`) propagates
as `none`; otherwise structure errors are counted and, only when there are
none, version validation runs and its errors and warnings are counted. -/
def perPackageBody (oracle : JVal → HeadOutcome) (package_name : String)
    (loaded : Option (List (String × JVal))) : Option (Nat × Nat) :=
  match loaded with
  | none => some (1, 0)
  | some package_data =>
      match validate_package_structure package_name package_data with
      | none => none
      | some structure_errors =>
          if structure_errors.isEmpty then
            match validate_package_versions oracle package_name package_data with
            | none => none
            | some (version_errors, version_warnings) =>
                some (version_errors.length, version_warnings.length)
          else some (structure_errors.length, 0)

/-- The package loop of `main`, accumulating (error, warning) counts over the
package files in listing order; `none` propagates an uncaught exception. -/
def processPackages (oracle : JVal → HeadOutcome)
    (load : String → Option (List (String × JVal))) :
    List String → Option (Nat × Nat)
  | [] => some (0, 0)
  | package_file :: rest =>
      match perPackageBody oracle (replaceJsonAll package_file) (load package_file) with
      | none => none
      | some (e, w) =>
          match processPackages oracle load rest with
          | none => none
          | some (e', w') => some (e + e', w + w')

/-- `main` from the script.  Returns `some exitCode`; `none` would be an
uncaught exception (shown below never to happen).  `indexData` is the load
result of `index.json` (its key list), `packagesDirExists` the existence of
the packages directory, `dirListing` its raw listing, and `load` the load
result of each package file. -/
def main (oracle : JVal → HeadOutcome) (indexData : Option (List String))
    (packagesDirExists : Bool) (dirListing : List String)
    (load : String → Option (List (String × JVal))) : Option Nat :=
  match indexData with
  | none => some 1
  | some indexKeys =>
      if packagesDirExists then
        let package_files := dirListing.filter endsWithJson
        let consistency_errors := validate_index_consistency indexKeys package_files
        match processPackages oracle load package_files with
        | none => none
        | some (package_errors, _package_warnings) =>
            if consistency_errors.length + package_errors > 0 then some 1 else some 0
      else some 1

/-- The versions mapping of the C1 counterexample descriptor: its `latest`
value is the string `"latest"`, which names no key other than `latest`
itself. -/
def c1Versions : List (String × JVal) := [("latest", JVal.str "latest")]

/-- The C1 counterexample descriptor: structurally complete, name matching
the filename stem `"pkg"`. -/
def c1Data : List (String × JVal) :=
  [("name", JVal.str "pkg"), ("author", JVal.str "a"),
   ("description", JVal.str "d"), ("versions", JVal.obj c1Versions)]

/-- A versions mapping whose `latest` value is an (unhashable) object, so the
membership test `latest not in versions` raises an uncaught `TypeError`. -/
def c1CrashVersions : List (String × JVal) :=
  [("latest", JVal.obj []),
   ("1.0", JVal.obj [("download", JVal.str "https://example.com/pkg.zip")])]

/-- A structurally complete descriptor around `c1CrashVersions`. -/
def c1CrashData : List (String × JVal) :=
  [("name", JVal.str "pkg"), ("author", JVal.str "a"),
   ("description", JVal.str "d"), ("versions", JVal.obj c1CrashVersions)]

/-- Versions mapping of end-to-end scenario 4 of the spec: `latest` points at
`"2.0"` but only `"1.0"` exists. -/
def scen4Versions : List (String × JVal) :=
  [("latest", JVal.str "2.0"),
   ("1.0", JVal.obj [("download", JVal.str "https://example.com/pkg.zip")])]

/-- Descriptor of end-to-end scenario 4. -/
def scen4Data : List (String × JVal) :=
  [("name", JVal.str "foo"), ("author", JVal.str "a"),
   ("description", JVal.str "d"), ("versions", JVal.obj scen4Versions)]

/-- Loader of scenario 4: only `foo.json` exists and parses. -/
def scen4Load : String → Option (List (String × JVal)) :=
  fun f => if f == "foo.json" then some scen4Data else none

/-- An oracle whose every HEAD request times out. -/
def timeoutOracle : JVal → HeadOutcome := fun _ => HeadOutcome.timeout

/-- An oracle whose every HEAD request yields HTTP 200. -/
def okOracle : JVal → HeadOutcome := fun _ => HeadOutcome.response 200

/-- Versions mapping of a fully valid demo descriptor. -/
def demoVersions : List (String × JVal) :=
  [("latest", JVal.str "1.0"),
   ("1.0", JVal.obj [("download", JVal.str "https://example.com/demo.zip")])]

/-- A fully valid demo descriptor for the file `demo.json`. -/
def demoData : List (String × JVal) :=
  [("name", JVal.str "demo"), ("author", JVal.str "a"),
   ("description", JVal.str "d"), ("versions", JVal.obj demoVersions)]

end Rainmeas

namespace Rainmeas

/-! ## Basic facts about strings and the validator messages -/

theorem dataAppend (s t : String) : (s ++ t).data = s.data ++ t.data := rfl

theorem strEq_of_data {s t : String} (h : s.data = t.data) : s = t :=
  congrArg String.mk h

theorem missingFieldMsg_head (f : String) :
    (missingFieldMsg f).data.head? = some 'M' := rfl

theorem nameMismatchMsg_head (v : Option JVal) (pn : String) :
    (nameMismatchMsg v pn).data.head? = some 'P' := rfl

theorem latestNotFoundMsg_head (v : JVal) :
    (latestNotFoundMsg v).data.head? = some 'L' := rfl

theorem timeoutMsg_head (v : String) : (timeoutMsg v).data.head? = some 'T' := rfl

theorem genericNetworkMsg_head (v d : String) :
    (genericNetworkMsg v d).data.head? = some 'E' := rfl

theorem notMem_of_head {c : Char} {m : String} {l : List String}
    (hl : ∀ x ∈ l, x.data.head? = some c) (hm : m.data.head? ≠ some c) : m ∉ l :=
  fun h => hm (hl m h)

/-! ## Structure validator: claims C2 and C1 -/

/-- Claim C2 (confirmed): a descriptor whose `name` field equals the
filename-derived package name, with all of name, author, description and
versions present, whose `versions` value is a mapping containing a `latest`
key whose value equals an existing version key, gets an empty error list
(`some []`, in particular no uncaught exception) from
`validate_package_structure`. -/
theorem c2_valid_descriptor_no_errors (package_name : String)
    (package_data versions : List (String × JVal)) (latest : JVal) (k : String)
    (hname : List.lookup "name" package_data = some (JVal.str package_name))
    (hauthor : ∃ v, List.lookup "author" package_data = some v)
    (hdesc : ∃ v, List.lookup "description" package_data = some v)
    (hvers : List.lookup "versions" package_data = some (JVal.obj versions))
    (hlatest : List.lookup "latest" versions = some latest)
    (hkey : k ∈ versions.map Prod.fst) (hval : latest = JVal.str k) :
    validate_package_structure package_name package_data = some [] := by
  obtain ⟨va, hva⟩ := hauthor
  obtain ⟨vd, hvd⟩ := hdesc
  have h1 : required_fields.filter
      (fun field => (List.lookup field package_data).isNone) = [] := by
    rw [List.filter_eq_nil_iff]
    intro f hf
    simp only [required_fields, List.mem_cons, List.not_mem_nil, or_false] at hf
    rcases hf with rfl | rfl | rfl | rfl <;>
      simp [hname, hva, hvd, hvers]
  have h2 : nameFieldMatches package_data package_name = true := by
    simp [nameFieldMatches, hname]
  have h3 : pyInKeys latest versions = some true := by
    subst hval
    simp only [pyInKeys, Option.some.injEq, List.any_eq_true]
    obtain ⟨kv, hkv, hfst⟩ := List.mem_map.mp hkey
    exact ⟨kv, hkv, by simp [hfst]⟩
  simp [validate_package_structure, versionsErrors?, latestErrors?,
    fieldAndNameErrors, h1, h2, hvers, hlatest, h3]

/-- Witness for C2 at a concrete valid descriptor. -/
theorem c2_valid_descriptor_no_errors_witness :
    validate_package_structure "demo" demoData = some [] :=
  c2_valid_descriptor_no_errors "demo" demoData demoVersions (JVal.str "1.0") "1.0"
    rfl ⟨_, rfl⟩ ⟨_, rfl⟩ rfl rfl (by decide) rfl

/-- Claim C1 (corrected): for a descriptor whose `versions` value is a
mapping with a `latest` key, the membership test `latest not in versions`
decides the outcome.  When the `latest` value is an array or object the test
raises an uncaught `TypeError` and no error list is returned at all;
otherwise the "Latest version ... not found" error is reported iff the value
is not a string equal to SOME key of `versions` -- the key `latest` itself
included, unlike the claim's "other than `latest` itself". -/
theorem c1_latest_error_iff (package_name : String)
    (package_data versions : List (String × JVal)) (latest : JVal)
    (hvers : List.lookup "versions" package_data = some (JVal.obj versions))
    (hlatest : List.lookup "latest" versions = some latest) :
    (pyInKeys latest versions = none ↔
        ((∃ xs, latest = JVal.arr xs) ∨ (∃ fs, latest = JVal.obj fs))) ∧
    (pyInKeys latest versions = none →
        validate_package_structure package_name package_data = none) ∧
    (∀ b, pyInKeys latest versions = some b →
        ∃ errs, validate_package_structure package_name package_data = some errs ∧
          (latestNotFoundMsg latest ∈ errs
            ↔ ¬ ∃ kv, kv ∈ versions ∧ latest = JVal.str kv.1)) := by
  have hnotmem : latestNotFoundMsg latest
      ∉ fieldAndNameErrors package_name package_data := by
    have hA : latestNotFoundMsg latest ∉
        (required_fields.filter
          (fun field => (List.lookup field package_data).isNone)).map missingFieldMsg := by
      refine notMem_of_head (c := 'M') ?_ (by simp [latestNotFoundMsg_head])
      intro x hx
      obtain ⟨g, _, rfl⟩ := List.mem_map.mp hx
      exact missingFieldMsg_head g
    have hB : latestNotFoundMsg latest ∉
        (if nameFieldMatches package_data package_name then []
         else [nameMismatchMsg (List.lookup "name" package_data) package_name]) := by
      refine notMem_of_head (c := 'P') ?_ (by simp [latestNotFoundMsg_head])
      intro x hx
      split at hx
      · simp at hx
      · simp only [List.mem_singleton] at hx
        subst hx
        exact nameMismatchMsg_head _ _
    unfold fieldAndNameErrors
    rw [List.mem_append]
    rintro (h | h)
    · exact hA h
    · exact hB h
  refine ⟨?_, ?_, ?_⟩
  · cases latest with
    | str s => simp [pyInKeys]
    | num n => simp [pyInKeys]
    | bool b => simp [pyInKeys]
    | null => simp [pyInKeys]
    | arr xs => simp [pyInKeys]
    | obj fs => simp [pyInKeys]
  · intro hnone
    simp [validate_package_structure, versionsErrors?, latestErrors?, hvers,
      hlatest, hnone]
  · intro b hb
    cases b with
    | false =>
      refine ⟨fieldAndNameErrors package_name package_data
          ++ [latestNotFoundMsg latest], ?_, ?_⟩
      · simp [validate_package_structure, versionsErrors?, latestErrors?, hvers,
          hlatest, hb]
      · have hmem : latestNotFoundMsg latest
            ∈ fieldAndNameErrors package_name package_data
              ++ [latestNotFoundMsg latest] := by simp
        have hnex : ¬ ∃ kv, kv ∈ versions ∧ latest = JVal.str kv.1 := by
          rintro ⟨kv, hkv, heq⟩
          rw [heq] at hb
          simp only [pyInKeys, Option.some.injEq] at hb
          have h4 := (List.any_eq_false.mp hb) kv hkv
          simp at h4
        exact ⟨fun _ => hnex, fun _ => hmem⟩
    | true =>
      refine ⟨fieldAndNameErrors package_name package_data, ?_, ?_⟩
      · simp [validate_package_structure, versionsErrors?, latestErrors?, hvers,
          hlatest, hb]
      · have hex : ∃ kv, kv ∈ versions ∧ latest = JVal.str kv.1 := by
          cases latest with
          | str s =>
            simp only [pyInKeys, Option.some.injEq] at hb
            obtain ⟨kv, hkv, hs⟩ := List.any_eq_true.mp hb
            exact ⟨kv, hkv, by rw [eq_of_beq hs]⟩
          | num n => simp [pyInKeys] at hb
          | bool bb => simp [pyInKeys] at hb
          | null => simp [pyInKeys] at hb
          | arr xs => simp [pyInKeys] at hb
          | obj fs => simp [pyInKeys] at hb
        exact ⟨fun hmem => (hnotmem hmem).elim, fun hnex => (hnex hex).elim⟩

/-- Witness for the corrected C1 at a concrete input: `latest` points at the
string `"1.0"`, which is a key, so an error list comes back without the
Latest-not-found error. -/
theorem c1_latest_error_iff_witness :
    ∃ errs, validate_package_structure "demo" demoData = some errs ∧
      (latestNotFoundMsg (JVal.str "1.0") ∈ errs
        ↔ ¬ ∃ kv, kv ∈ demoVersions ∧ JVal.str "1.0" = JVal.str kv.1) :=
  (c1_latest_error_iff "demo" demoData demoVersions (JVal.str "1.0") rfl rfl).2.2
    true rfl

/-- Counterexample to claim C1 as stated, at two inputs.  First, in `c1Data`
the `versions` mapping is `[("latest", "latest")]`: the value of
`versions.latest` equals no key other than `latest` itself, yet the validator
returns no error at all (the code tests membership among ALL keys, and the
value `"latest"` is the key `latest` itself).  Second, in `c1CrashData` the
`latest` value is an object, again equal to no other key, and instead of
reporting the error the membership test raises an uncaught `TypeError`
(no error list is returned at all). -/
theorem c1_counterexample :
    (List.lookup "versions" c1Data = some (JVal.obj c1Versions)
      ∧ List.lookup "latest" c1Versions = some (JVal.str "latest")
      ∧ (c1Versions.map Prod.fst).filter (fun k => k != "latest") = []
      ∧ validate_package_structure "pkg" c1Data = some [])
    ∧ (List.lookup "versions" c1CrashData = some (JVal.obj c1CrashVersions)
      ∧ List.lookup "latest" c1CrashVersions = some (JVal.obj [])
      ∧ validate_package_structure "pkg" c1CrashData = none) :=
  ⟨⟨rfl, rfl, rfl, rfl⟩, rfl, rfl, rfl⟩

/-! ## URL checker: claim C4 -/

/-- Claim C4 (confirmed): the URL checker classifies every outcome of the
HEAD request deterministically into exactly one of five cases: status 200 is
success with an empty message; 404 a dedicated not-found error; any other
status an error containing the status code; a timeout a timeout-specific
error; any other request exception a generic error with the exception detail;
and the timeout error differs from the generic one. -/
theorem c4_url_classification (oracle : JVal → HeadOutcome) (version : String)
    (u : JVal) :
    (oracle u = HeadOutcome.response 200 →
        validate_version_download_url oracle version u = (true, "")) ∧
    (oracle u = HeadOutcome.response 404 →
        validate_version_download_url oracle version u = (false, urlNotFoundMsg version)) ∧
    (∀ c, oracle u = HeadOutcome.response c → c ≠ 200 → c ≠ 404 →
        validate_version_download_url oracle version u = (false, httpStatusMsg c version) ∧
        ∃ l r, (httpStatusMsg c version).data = l ++ (toString c).data ++ r) ∧
    (oracle u = HeadOutcome.timeout →
        validate_version_download_url oracle version u = (false, timeoutMsg version)) ∧
    (∀ d, oracle u = HeadOutcome.requestException d →
        validate_version_download_url oracle version u = (false, genericNetworkMsg version d)) ∧
    (∀ d, timeoutMsg version ≠ genericNetworkMsg version d) := by
  refine ⟨?_, ?_, ?_, ?_, ?_, ?_⟩
  · intro h; simp [validate_version_download_url, h]
  · intro h; simp [validate_version_download_url, h]
  · intro c h hc200 hc404
    constructor
    · simp [validate_version_download_url, h, hc200, hc404]
    · refine ⟨"HTTP ".data, (" for version " ++ version).data, ?_⟩
      simp [httpStatusMsg, dataAppend, List.append_assoc]
  · intro h; simp [validate_version_download_url, h]
  · intro d h; simp [validate_version_download_url, h]
  · intro d h
    have h2 : (timeoutMsg version).data.head? = (genericNetworkMsg version d).data.head? :=
      congrArg (fun s => s.data.head?) h
    rw [timeoutMsg_head, genericNetworkMsg_head] at h2
    simp at h2

/-- Witness for C4: a timing-out oracle yields the timeout-specific error. -/
theorem c4_url_classification_witness :
    validate_version_download_url timeoutOracle "1.0" (JVal.str "u")
      = (false, timeoutMsg "1.0") :=
  (c4_url_classification timeoutOracle "1.0" (JVal.str "u")).2.2.2.1 rfl

/-! ## Versions validator reached only after structure validation: claim C9 -/

/-- A descriptor that passes structure validation (returning an empty error
list, in particular not raising) has a `versions` field whose value is an
object. -/
theorem structure_ok_versions_obj (pn : String) (d : List (String × JVal))
    (h : validate_package_structure pn d = some []) :
    ∃ vs, List.lookup "versions" d = some (JVal.obj vs) := by
  unfold validate_package_structure at h
  split at h
  · exact absurd h (by simp)
  · rename_i versionErrs heq
    simp only [Option.some.injEq, List.append_eq_nil] at h
    obtain ⟨h1, h2⟩ := h
    subst h2
    unfold versionsErrors? at heq
    split at heq
    · rename_i hq
      exfalso
      have hmem : missingFieldMsg "versions" ∈ fieldAndNameErrors pn d := by
        unfold fieldAndNameErrors
        refine List.mem_append_left _ (List.mem_map_of_mem _ ?_)
        rw [List.mem_filter]
        exact ⟨by simp [required_fields], by simp [hq]⟩
      rw [h1] at hmem
      exact List.not_mem_nil _ hmem
    · rename_i versions hq
      exact ⟨versions, hq⟩
    · rename_i v hq
      simp at heq

/-- Claim C9 (confirmed): under the precondition that structure validation
returned no errors, the `versions` field is present (with an object value),
so the "Missing versions data" early return of `validate_package_versions`
is not taken; and the driver, which calls version validation only on such
descriptors, consumes its regular result. -/
theorem c9_missing_versions_unreachable (oracle : JVal → HeadOutcome)
    (nm : String) (d : List (String × JVal))
    (h : validate_package_structure nm d = some []) :
    (∃ vs, List.lookup "versions" d = some (JVal.obj vs) ∧
        validate_package_versions oracle nm d = some (versionsLoop oracle nm vs)) ∧
    (∃ ve vw, validate_package_versions oracle nm d = some (ve, vw) ∧
        perPackageBody oracle nm (some d) = some (ve.length, vw.length)) := by
  obtain ⟨vs, hvs⟩ := structure_ok_versions_obj nm d h
  refine ⟨⟨vs, hvs, by simp [validate_package_versions, hvs]⟩, ?_⟩
  refine ⟨(versionsLoop oracle nm vs).1, (versionsLoop oracle nm vs).2, ?_, ?_⟩
  · simp [validate_package_versions, hvs]
  · simp [perPackageBody, h, validate_package_versions, hvs]

/-! ## Index consistency: claim C3 -/

theorem contains_eq_true_iff {s : String} {l : List String} :
    l.contains s = true ↔ s ∈ l := List.elem_iff

theorem not_contains_iff {s : String} {l : List String} :
    (!l.contains s) = true ↔ s ∉ l := by
  cases h : l.contains s
  · have h2 := @contains_eq_true_iff s l
    rw [h] at h2
    simp only [Bool.not_false]
    simp [← h2]
  · have h2 := contains_eq_true_iff.mp h
    simp [h2]

theorem strAppend_inj {pre suf a b : String} (h : pre ++ a ++ suf = pre ++ b ++ suf) :
    a = b := by
  apply strEq_of_data
  have hd : pre.data ++ a.data ++ suf.data = pre.data ++ b.data ++ suf.data := by
    have h2 := congrArg String.data h
    simpa [dataAppend] using h2
  exact List.append_cancel_left (List.append_cancel_right hd)

theorem pkgInIndexNoFileMsg_inj {k k' : String}
    (h : pkgInIndexNoFileMsg k = pkgInIndexNoFileMsg k') : k = k' := by
  unfold pkgInIndexNoFileMsg at h
  exact strAppend_inj h

theorem pkgFileNotInIndexMsg_inj {f f' : String}
    (h : pkgFileNotInIndexMsg f = pkgFileNotInIndexMsg f') : f = f' := by
  unfold pkgFileNotInIndexMsg at h
  exact strAppend_inj h

theorem pkgInIndexNoFileMsg_last (k : String) :
    (pkgInIndexNoFileMsg k).data.reverse.head? = some '/' := by
  show ((("Package \x27" ++ k)
      ++ "\x27 in index.json but no corresponding file in packages/").data).reverse.head?
    = some '/'
  rw [dataAppend, List.reverse_append]
  rfl

theorem pkgFileNotInIndexMsg_last (f : String) :
    (pkgFileNotInIndexMsg f).data.reverse.head? = some 'n' := by
  show ((("Package file \x27" ++ f)
      ++ "\x27 not referenced in index.json").data).reverse.head? = some 'n'
  rw [dataAppend, List.reverse_append]
  rfl

/-- The two consistency messages are never equal (their last characters
differ), whatever the interpolated names are. -/
theorem pkgMsgs_ne (k f : String) : pkgInIndexNoFileMsg k ≠ pkgFileNotInIndexMsg f := by
  intro h
  have h2 : (pkgInIndexNoFileMsg k).data.reverse.head?
      = (pkgFileNotInIndexMsg f).data.reverse.head? :=
    congrArg (fun s => s.data.reverse.head?) h
  rw [pkgInIndexNoFileMsg_last, pkgFileNotInIndexMsg_last] at h2
  simp at h2

theorem count_map_inj {α β : Type} [DecidableEq α] [DecidableEq β]
    (f : α → β) (hf : ∀ x y, f x = f y → x = y) (l : List α) (a : α) :
    (l.map f).count (f a) = l.count a := by
  induction l with
  | nil => simp
  | cons b l ih =>
    simp only [List.map_cons, List.count_cons, ih]
    by_cases h : b = a
    · subst h; simp
    · have h2 : ¬ f b = f a := fun hc => h (hf _ _ hc)
      simp [h, h2]

theorem count_filter_nodup {α : Type} [DecidableEq α] (p : α → Bool) (l : List α)
    (hl : l.Nodup) (a : α) :
    (l.filter p).count a = if a ∈ l ∧ p a = true then 1 else 0 := by
  induction l with
  | nil => simp
  | cons b l ih =>
    rw [List.nodup_cons] at hl
    obtain ⟨hb, hl'⟩ := hl
    have ihl := ih hl'
    by_cases hp : p b = true
    · rw [List.filter_cons_of_pos hp, List.count_cons, ihl]
      by_cases hab : a = b
      · subst hab
        simp [hb, hp]
      · simp only [List.mem_cons]
        have h2 : (b == a) = false := by simp [Ne.symm hab]
        simp [h2, hab]
    · rw [List.filter_cons_of_neg hp, ihl]
      by_cases hab : a = b
      · subst hab; simp [hp]
      · simp [hab]

/-- Claim C3 (corrected): with index keys and package files both duplicate
free (they come from a dict and a directory listing), the consistency checker
returns exactly one error per index key lacking a `<key>.json` file, exactly
one error per package file whose name DERIVED BY REMOVING EVERY `.json`
OCCURRENCE (not just a trailing extension, as the claim said) is not an index
key, and all index-to-files errors precede all files-to-index errors. -/
theorem c3_index_consistency_errors (indexKeys package_files : List String)
    (hI : indexKeys.Nodup) (hF : package_files.Nodup) :
    (∀ k, (validate_index_consistency indexKeys package_files).count
          (pkgInIndexNoFileMsg k)
        = if k ∈ indexKeys ∧ (k ++ ".json") ∉ package_files then 1 else 0) ∧
    (∀ f, (validate_index_consistency indexKeys package_files).count
          (pkgFileNotInIndexMsg f)
        = if f ∈ package_files ∧ replaceJsonAll f ∉ indexKeys then 1 else 0) ∧
    (∃ e₁ e₂, validate_index_consistency indexKeys package_files = e₁ ++ e₂
        ∧ (∀ m ∈ e₁, ∃ k, k ∈ indexKeys ∧ m = pkgInIndexNoFileMsg k)
        ∧ (∀ m ∈ e₂, ∃ f, f ∈ package_files ∧ m = pkgFileNotInIndexMsg f)) := by
  refine ⟨?_, ?_, ?_⟩
  · intro k
    unfold validate_index_consistency
    rw [List.count_append]
    have h2 : (List.count (pkgInIndexNoFileMsg k)
        ((package_files.filter (fun package_file =>
            !indexKeys.contains (replaceJsonAll package_file))).map
          pkgFileNotInIndexMsg)) = 0 := by
      apply List.count_eq_zero_of_not_mem
      intro hmem
      obtain ⟨f, _, hf⟩ := List.mem_map.mp hmem
      exact pkgMsgs_ne k f hf.symm
    rw [h2, Nat.add_zero,
      count_map_inj pkgInIndexNoFileMsg (fun _ _ => pkgInIndexNoFileMsg_inj),
      count_filter_nodup _ _ hI]
    exact if_congr (and_congr_right fun _ => not_contains_iff) rfl rfl
  · intro f
    unfold validate_index_consistency
    rw [List.count_append]
    have h2 : (List.count (pkgFileNotInIndexMsg f)
        ((indexKeys.filter (fun package_name =>
            !package_files.contains (package_name ++ ".json"))).map
          pkgInIndexNoFileMsg)) = 0 := by
      apply List.count_eq_zero_of_not_mem
      intro hmem
      obtain ⟨k, _, hk⟩ := List.mem_map.mp hmem
      exact pkgMsgs_ne k f hk
    rw [h2, Nat.zero_add,
      count_map_inj pkgFileNotInIndexMsg (fun _ _ => pkgFileNotInIndexMsg_inj),
      count_filter_nodup _ _ hF]
    exact if_congr (and_congr_right fun _ => not_contains_iff) rfl rfl
  · refine ⟨_, _, rfl, ?_, ?_⟩
    · intro m hm
      obtain ⟨k, hk, rfl⟩ := List.mem_map.mp hm
      exact ⟨k, (List.mem_filter.mp hk).1, rfl⟩
    · intro m hm
      obtain ⟨f, hf, rfl⟩ := List.mem_map.mp hm
      exact ⟨f, (List.mem_filter.mp hf).1, rfl⟩

/-- Witness for the corrected C3 at a concrete input. -/
theorem c3_index_consistency_errors_witness :
    (∀ k, (validate_index_consistency ["foo"] ["bar.json"]).count
          (pkgInIndexNoFileMsg k)
        = if k ∈ ["foo"] ∧ (k ++ ".json") ∉ ["bar.json"] then 1 else 0) ∧
    (∀ f, (validate_index_consistency ["foo"] ["bar.json"]).count
          (pkgFileNotInIndexMsg f)
        = if f ∈ ["bar.json"] ∧ replaceJsonAll f ∉ ["foo"] then 1 else 0) ∧
    (∃ e₁ e₂, validate_index_consistency ["foo"] ["bar.json"] = e₁ ++ e₂
        ∧ (∀ m ∈ e₁, ∃ k, k ∈ ["foo"] ∧ m = pkgInIndexNoFileMsg k)
        ∧ (∀ m ∈ e₂, ∃ f, f ∈ ["bar.json"] ∧ m = pkgFileNotInIndexMsg f)) :=
  c3_index_consistency_errors ["foo"] ["bar.json"] (by decide) (by decide)

/-- Counterexample to claim C3 as stated: index `["a.json"]`, package files
`["a.json.json"]`.  Every index key has its file and every file's stem (the
filename with only the trailing `.json` removed) is an index key, so the
claim predicts no errors; but the code derives the name by removing every
`.json` occurrence, getting `"a"`, and reports one files-to-index error. -/
theorem c3_counterexample :
    stripTrailingJson "a.json.json" = "a.json"
    ∧ ("a.json" ++ ".json") ∈ ["a.json.json"]
    ∧ (["a.json"].filter (fun k => ! List.contains ["a.json.json"] (k ++ ".json"))) = []
    ∧ (["a.json.json"].filter (fun f => ! List.contains ["a.json"] (stripTrailingJson f))) = []
    ∧ validate_index_consistency ["a.json"] ["a.json.json"]
        = [pkgFileNotInIndexMsg "a.json.json"] :=
  ⟨rfl, by decide, rfl, rfl, rfl⟩

/-! ## The package-name derivation: claim C10 -/

theorem stripJsonAll_length_le (s : List Char) :
    (stripJsonAll s).length ≤ s.length := by
  induction s using stripJsonAll.induct with
  | case1 rest ih =>
    rw [stripJsonAll.eq_1]
    simp only [List.length_cons]
    omega
  | case2 c rest h ih =>
    rw [stripJsonAll.eq_2 c rest h]
    simp only [List.length_cons]
    omega
  | case3 => simp [stripJsonAll]

theorem stripJsonAll_lt_of_contains (a b : List Char) :
    ∀ s, s = a ++ jsonPat ++ b → (stripJsonAll s).length < s.length := by
  induction a with
  | nil =>
    intro s hs
    subst hs
    show (stripJsonAll ('.' :: 'j' :: 's' :: 'o' :: 'n' :: b)).length
      < ('.' :: 'j' :: 's' :: 'o' :: 'n' :: b).length
    rw [stripJsonAll.eq_1]
    have := stripJsonAll_length_le b
    simp only [List.length_cons]
    omega
  | cons c a' ih =>
    intro s hs
    subst hs
    show (stripJsonAll (c :: ((a' ++ jsonPat) ++ b))).length
      < (c :: ((a' ++ jsonPat) ++ b)).length
    by_cases hm : ∃ r, c = '.' ∧ (a' ++ jsonPat) ++ b = 'j' :: 's' :: 'o' :: 'n' :: r
    · obtain ⟨r, rfl, hr⟩ := hm
      rw [hr, stripJsonAll.eq_1]
      have h1 := stripJsonAll_length_le r
      have h2 : ((a' ++ jsonPat) ++ b).length = 4 + r.length := by
        rw [hr]; simp; omega
      simp only [List.length_cons]
      omega
    · rw [stripJsonAll.eq_2 c _ (fun r hc hr => hm ⟨r, hc, hr⟩)]
      have := ih ((a' ++ jsonPat) ++ b) rfl
      simp only [List.length_cons]
      omega

theorem stripJsonAll_append_pat_aux :
    ∀ (n : Nat) (t : List Char), t.length ≤ n →
      stripJsonAll (t ++ jsonPat) = stripJsonAll t := by
  intro n
  induction n with
  | zero =>
    intro t ht
    have h0 : t = [] := by
      cases t
      · rfl
      · simp at ht
    subst h0
    rfl
  | succ n ih =>
    intro t ht
    match t with
    | [] => rfl
    | c :: rest =>
      show stripJsonAll (c :: (rest ++ jsonPat)) = stripJsonAll (c :: rest)
      rcases rest with _ | ⟨r1, _ | ⟨r2, _ | ⟨r3, _ | ⟨r4, r'⟩⟩⟩⟩
      · rw [stripJsonAll.eq_2 c ([] ++ jsonPat)
            (by intro r hc hr; simp [jsonPat] at hr),
          stripJsonAll.eq_2 c []
            (by intro r hc hr; simp at hr)]
        rfl
      · rw [stripJsonAll.eq_2 c ([r1] ++ jsonPat)
            (by intro r hc hr; simp [jsonPat] at hr),
          stripJsonAll.eq_2 c [r1]
            (by intro r hc hr; simp at hr)]
        rw [ih [r1] (by simp at ht ⊢; omega)]
      · rw [stripJsonAll.eq_2 c ([r1, r2] ++ jsonPat)
            (by intro r hc hr; simp [jsonPat] at hr),
          stripJsonAll.eq_2 c [r1, r2]
            (by intro r hc hr; simp at hr)]
        rw [ih [r1, r2] (by simp at ht ⊢; omega)]
      · rw [stripJsonAll.eq_2 c ([r1, r2, r3] ++ jsonPat)
            (by intro r hc hr; simp [jsonPat] at hr),
          stripJsonAll.eq_2 c [r1, r2, r3]
            (by intro r hc hr; simp at hr)]
        rw [ih [r1, r2, r3] (by simp at ht ⊢; omega)]
      · by_cases hm : c = '.' ∧ r1 = 'j' ∧ r2 = 's' ∧ r3 = 'o' ∧ r4 = 'n'
        · obtain ⟨rfl, rfl, rfl, rfl, rfl⟩ := hm
          show stripJsonAll ('.' :: 'j' :: 's' :: 'o' :: 'n' :: (r' ++ jsonPat))
            = stripJsonAll ('.' :: 'j' :: 's' :: 'o' :: 'n' :: r')
          rw [stripJsonAll.eq_1, stripJsonAll.eq_1]
          exact ih r' (by simp at ht; omega)
        · rw [stripJsonAll.eq_2 c ((r1 :: r2 :: r3 :: r4 :: r') ++ jsonPat)
              (by
                intro r hc hr
                simp only [List.cons_append, List.cons.injEq] at hr
                exact hm ⟨hc, hr.1, hr.2.1, hr.2.2.1, hr.2.2.2.1⟩),
            stripJsonAll.eq_2 c (r1 :: r2 :: r3 :: r4 :: r')
              (by
                intro r hc hr
                simp only [List.cons.injEq] at hr
                exact hm ⟨hc, hr.1, hr.2.1, hr.2.2.1, hr.2.2.2.1⟩)]
          rw [ih (r1 :: r2 :: r3 :: r4 :: r') (by simp at ht ⊢; omega)]

theorem stripJsonAll_append_pat (t : List Char) :
    stripJsonAll (t ++ jsonPat) = stripJsonAll t :=
  stripJsonAll_append_pat_aux t.length t le_rfl

/-- The pattern `".json"` cannot straddle itself: no proper prefix of it is
one of its suffixes of the same length. -/
theorem pat_no_straddle : ∀ d : Nat, 1 ≤ d → d ≤ 4 →
    jsonPat.take (5 - d) ≠ jsonPat.drop d := by
  intro d h1 h4
  interval_cases d <;> decide

/-- If `t ++ ".json"` has an occurrence of `".json"` followed by at least one
more character, then `t` itself contains `".json"`. -/
theorem contains_of_endsPat (t a b : List Char) (h : t ++ jsonPat = a ++ jsonPat ++ b)
    (hb : b ≠ []) : ∃ a' b', t = a' ++ jsonPat ++ b' := by
  have hlen : t.length = a.length + b.length := by
    have h2 := congrArg List.length h
    simp [jsonPat] at h2
    omega
  by_cases h5 : 5 ≤ b.length
  · refine ⟨a, b.take (b.length - 5), ?_⟩
    have htake := congrArg (List.take t.length) h
    rw [List.take_left] at htake
    rw [htake, List.take_append_eq_append_take, List.take_append_eq_append_take]
    have e1 : List.take t.length a = a := List.take_of_length_le (by omega)
    have e2 : List.take (t.length - a.length) jsonPat = jsonPat :=
      List.take_of_length_le (by simp [jsonPat]; omega)
    have e3 : t.length - (a ++ jsonPat).length = b.length - 5 := by
      simp [jsonPat]; omega
    rw [e1, e2, e3]
  · have hd1 : 1 ≤ b.length := by
      have := List.length_pos.mpr hb
      omega
    have hdrop := congrArg (List.drop a.length) h
    have hR : List.drop a.length ((a ++ jsonPat) ++ b) = jsonPat ++ b := by
      rw [List.drop_append_eq_append_drop, List.drop_left]
      have e : a.length - (a ++ jsonPat).length = 0 := by simp [jsonPat]
      rw [e, List.drop_zero]
    have hL : List.drop a.length (t ++ jsonPat) = (t.drop a.length) ++ jsonPat := by
      rw [List.drop_append_eq_append_drop]
      have e : a.length - t.length = 0 := by omega
      rw [e, List.drop_zero]
    rw [hL, hR] at hdrop
    have hulen : (t.drop a.length).length = b.length := by
      simp only [List.length_drop]
      omega
    have h2 := congrArg (List.drop (t.drop a.length).length) hdrop
    rw [List.drop_left, List.drop_append_eq_append_drop] at h2
    have e : (t.drop a.length).length - jsonPat.length = 0 := by
      simp [jsonPat]; omega
    rw [e, List.drop_zero] at h2
    have h3 := congrArg (List.take (5 - (t.drop a.length).length)) h2
    rw [List.take_append_eq_append_take] at h3
    have hlen2 : (jsonPat.drop (t.drop a.length).length).length
        = 5 - (t.drop a.length).length := by simp [jsonPat]
    have e2 : List.take (5 - (t.drop a.length).length)
        (jsonPat.drop (t.drop a.length).length)
        = jsonPat.drop (t.drop a.length).length :=
      List.take_of_length_le (by omega)
    have e3 : (5 - (t.drop a.length).length)
        - (jsonPat.drop (t.drop a.length).length).length = 0 := by omega
    rw [e2, e3, List.take_zero, List.append_nil] at h3
    exact absurd h3 (pat_no_straddle (t.drop a.length).length (by omega) (by omega))

/-- A character list containing `".json"` away from its end is changed
differently by removing all occurrences than by stripping only a trailing
occurrence. -/
theorem stripJsonAll_ne_stripTrailing (s a b : List Char) (hs : s = a ++ jsonPat ++ b)
    (hb : b ≠ []) :
    stripJsonAll s ≠ (if jsonPat.isSuffixOf s then s.take (s.length - 5) else s) := by
  by_cases hsuf : jsonPat.isSuffixOf s
  · rw [if_pos hsuf]
    obtain ⟨t, ht⟩ := List.isSuffixOf_iff_suffix.mp hsuf
    have hstake : s.take (s.length - 5) = t := by
      rw [← ht]
      have e : (t ++ jsonPat).length - 5 = t.length := by simp [jsonPat]
      rw [e, List.take_left]
    rw [hstake, ← ht, stripJsonAll_append_pat]
    obtain ⟨a', b', ht'⟩ := contains_of_endsPat t a b (ht.trans hs) hb
    have hlt := stripJsonAll_lt_of_contains a' b' t ht'
    intro he
    rw [he] at hlt
    omega
  · rw [if_neg hsuf]
    have hlt := stripJsonAll_lt_of_contains a b s hs
    intro he
    rw [he] at hlt
    omega

/-- Claim C10 (confirmed): the package name is derived by removing EVERY
occurrence of `".json"`, so for a filename containing `".json"` away from the
end the derived name differs from the trailing-stem; and this same derivation
(`replaceJsonAll`) is what the Index Consistency Checker applies and what the
driver uses to name each package. -/
theorem c10_name_derivation (f : String) (a b : List Char)
    (hf : f.data = a ++ jsonPat ++ b) (hb : b ≠ []) :
    replaceJsonAll f ≠ stripTrailingJson f ∧
    (∀ indexKeys package_files, f ∈ package_files →
        (pkgFileNotInIndexMsg f ∈ validate_index_consistency indexKeys package_files
          ↔ replaceJsonAll f ∉ indexKeys)) ∧
    (∀ (oracle : JVal → HeadOutcome) (load : String → Option (List (String × JVal)))
        (rest : List String),
        processPackages oracle load (f :: rest)
        = match perPackageBody oracle (replaceJsonAll f) (load f) with
          | none => none
          | some (e, w) =>
              match processPackages oracle load rest with
              | none => none
              | some (e', w') => some (e + e', w + w')) := by
  refine ⟨?_, ?_, ?_⟩
  · have hne := stripJsonAll_ne_stripTrailing f.data a b hf hb
    intro he
    apply hne
    have hd := congrArg String.data he
    have h2 : (stripTrailingJson f).data
        = (if jsonPat.isSuffixOf f.data then f.data.take (f.data.length - 5)
           else f.data) := by
      unfold stripTrailingJson
      split
      · rfl
      · rfl
    rw [h2] at hd
    exact hd
  · intro indexKeys package_files hmem
    simp only [validate_index_consistency, List.mem_append]
    constructor
    · rintro (h1 | h2)
      · obtain ⟨k, _, hk⟩ := List.mem_map.mp h1
        exact absurd hk (pkgMsgs_ne k f)
      · obtain ⟨f', hf', hmsg⟩ := List.mem_map.mp h2
        have hff : f' = f := pkgFileNotInIndexMsg_inj hmsg
        subst hff
        exact not_contains_iff.mp (List.mem_filter.mp hf').2
    · intro hnot
      right
      apply List.mem_map_of_mem
      exact List.mem_filter.mpr ⟨hmem, not_contains_iff.mpr hnot⟩
  · intro oracle load rest
    rfl

/-- Witness for C10 at the filename `a.json.json`. -/
theorem c10_name_derivation_witness :
    replaceJsonAll "a.json.json" ≠ stripTrailingJson "a.json.json" :=
  (c10_name_derivation "a.json.json" ['a'] jsonPat rfl (by decide)).1

/-- Witness for C9 at a concrete structurally valid descriptor. -/
theorem c9_missing_versions_unreachable_witness :
    (∃ vs, List.lookup "versions" demoData = some (JVal.obj vs) ∧
        validate_package_versions okOracle "demo" demoData
          = some (versionsLoop okOracle "demo" vs)) ∧
    (∃ ve vw, validate_package_versions okOracle "demo" demoData = some (ve, vw) ∧
        perPackageBody okOracle "demo" (some demoData) = some (ve.length, vw.length)) :=
  c9_missing_versions_unreachable okOracle "demo" demoData rfl

/-! ## Per-version handling: claim C7 -/

/-- The version loop is an append homomorphism on entry lists. -/
theorem versionsLoop_append (oracle : JVal → HeadOutcome) (pn : String)
    (xs ys : List (String × JVal)) :
    versionsLoop oracle pn (xs ++ ys)
      = ((versionsLoop oracle pn xs).1 ++ (versionsLoop oracle pn ys).1,
         (versionsLoop oracle pn xs).2 ++ (versionsLoop oracle pn ys).2) := by
  induction xs with
  | nil => simp [versionsLoop]
  | cons kv rest ih =>
    obtain ⟨k, v⟩ := kv
    by_cases hk : (k == "latest") = true
    · simp only [List.cons_append, versionsLoop, hk, if_true, List.append_eq, ih]
    · simp only [List.cons_append, versionsLoop, hk, Bool.false_eq_true, if_false,
        List.append_eq, ih, List.append_assoc]

/-- Claim C7 (confirmed): within `validate_package_versions`, a version entry
other than `latest` contributes exactly one warning and nothing else when its
value is not an object (and no URL check happens: the entry result does not
depend on the oracle); exactly one error and nothing else when it is an
object without a `download` key (again oracle-independent); and when it has a
`download` key, its contribution is exactly the outcome of one URL check:
one error on failure, nothing on success. -/
theorem c7_version_entry_handling (oracle oracle' : JVal → HeadOutcome)
    (package_name k : String) (v : JVal) (L R : List (String × JVal))
    (hk : k ≠ "latest") :
    ((∀ vd, v ≠ JVal.obj vd) →
        (versionsLoop oracle package_name (L ++ (k, v) :: R)).1
          = (versionsLoop oracle package_name L).1
              ++ (versionsLoop oracle package_name R).1
        ∧ (versionsLoop oracle package_name (L ++ (k, v) :: R)).2
          = (versionsLoop oracle package_name L).2
              ++ legacyWarnMsg k :: (versionsLoop oracle package_name R).2
        ∧ versionEntryResult oracle package_name k v
            = versionEntryResult oracle' package_name k v) ∧
    (∀ vd, v = JVal.obj vd → List.lookup "download" vd = none →
        (versionsLoop oracle package_name (L ++ (k, v) :: R)).1
          = (versionsLoop oracle package_name L).1
              ++ missingDownloadMsg k :: (versionsLoop oracle package_name R).1
        ∧ (versionsLoop oracle package_name (L ++ (k, v) :: R)).2
          = (versionsLoop oracle package_name L).2
              ++ (versionsLoop oracle package_name R).2
        ∧ versionEntryResult oracle package_name k v
            = versionEntryResult oracle' package_name k v) ∧
    (∀ vd url, v = JVal.obj vd → List.lookup "download" vd = some url →
        (∀ m, validate_version_download_url oracle k url = (false, m) →
            (versionsLoop oracle package_name (L ++ (k, v) :: R)).1
              = (versionsLoop oracle package_name L).1
                  ++ invalidUrlMsg package_name k m
                    :: (versionsLoop oracle package_name R).1
            ∧ (versionsLoop oracle package_name (L ++ (k, v) :: R)).2
              = (versionsLoop oracle package_name L).2
                  ++ (versionsLoop oracle package_name R).2)
        ∧ (∀ m, validate_version_download_url oracle k url = (true, m) →
            (versionsLoop oracle package_name (L ++ (k, v) :: R)).1
              = (versionsLoop oracle package_name L).1
                  ++ (versionsLoop oracle package_name R).1
            ∧ (versionsLoop oracle package_name (L ++ (k, v) :: R)).2
              = (versionsLoop oracle package_name L).2
                  ++ (versionsLoop oracle package_name R).2)) := by
  have hkb : (k == "latest") = false := by simp [hk]
  have hmid : versionsLoop oracle package_name ((k, v) :: R)
      = ((versionEntryResult oracle package_name k v).1
            ++ (versionsLoop oracle package_name R).1,
         (versionEntryResult oracle package_name k v).2
            ++ (versionsLoop oracle package_name R).2) := by
    simp only [versionsLoop, hkb, Bool.false_eq_true, if_false]
  have hsplit := versionsLoop_append oracle package_name L ((k, v) :: R)
  rw [hmid] at hsplit
  refine ⟨?_, ?_, ?_⟩
  · intro hobj
    have hev : ∀ o : JVal → HeadOutcome,
        versionEntryResult o package_name k v = ([], [legacyWarnMsg k]) := by
      intro o
      cases v with
      | obj vd => exact absurd rfl (hobj vd)
      | str s => rfl
      | num n => rfl
      | bool b => rfl
      | null => rfl
      | arr xs => rfl
    rw [hsplit, hev oracle]
    exact ⟨by simp, by simp, (hev oracle').symm⟩
  · intro vd hv hdl
    subst hv
    have hev : ∀ o : JVal → HeadOutcome,
        versionEntryResult o package_name k (JVal.obj vd)
          = ([missingDownloadMsg k], []) := by
      intro o
      simp [versionEntryResult, hdl]
    rw [hsplit, hev oracle]
    exact ⟨by simp, by simp, (hev oracle').symm⟩
  · intro vd url hv hdl
    subst hv
    constructor
    · intro m hval
      have hev : versionEntryResult oracle package_name k (JVal.obj vd)
          = ([invalidUrlMsg package_name k m], []) := by
        simp [versionEntryResult, hdl, hval]
      rw [hsplit, hev]
      exact ⟨by simp, by simp⟩
    · intro m hval
      have hev : versionEntryResult oracle package_name k (JVal.obj vd)
          = ([], []) := by
        simp [versionEntryResult, hdl, hval]
      rw [hsplit, hev]
      exact ⟨by simp, by simp⟩

/-- Witness for C7: a single version whose URL check times out contributes
exactly its one error. -/
theorem c7_version_entry_handling_witness :
    (versionsLoop timeoutOracle "p"
        ([] ++ ("1.0", JVal.obj [("download", JVal.str "u")]) :: [])).1
      = (versionsLoop timeoutOracle "p" []).1
          ++ invalidUrlMsg "p" "1.0" (timeoutMsg "1.0")
            :: (versionsLoop timeoutOracle "p" []).1
    ∧ (versionsLoop timeoutOracle "p"
        ([] ++ ("1.0", JVal.obj [("download", JVal.str "u")]) :: [])).2
      = (versionsLoop timeoutOracle "p" []).2 ++ (versionsLoop timeoutOracle "p" []).2 :=
  ((c7_version_entry_handling timeoutOracle okOracle "p" "1.0"
      (JVal.obj [("download", JVal.str "u")]) [] [] (by decide)).2.2
    [("download", JVal.str "u")] (JVal.str "u") rfl rfl).1 (timeoutMsg "1.0") rfl

/-! ## The driver: claims C5, C6 and C8 -/

/-- On package files none of whose loaded descriptors make structure
validation raise, the package loop completes: every file contributes a
definite (error, warning) count.  The interesting case is a loaded package
that passed structure validation, whose `versions` value is then necessarily
an object. -/
theorem processPackages_total (oracle : JVal → HeadOutcome)
    (load : String → Option (List (String × JVal))) :
    ∀ files : List String,
      (∀ g d, g ∈ files → load g = some d →
          validate_package_structure (replaceJsonAll g) d ≠ none) →
      ∃ e w, processPackages oracle load files = some (e, w) := by
  intro files
  induction files with
  | nil => exact fun _ => ⟨0, 0, rfl⟩
  | cons f rest ih =>
    intro hsafe
    obtain ⟨e', w', ih'⟩ :=
      ih (fun g d hg hl => hsafe g d (List.mem_cons_of_mem f hg) hl)
    have hbody : ∃ e w,
        perPackageBody oracle (replaceJsonAll f) (load f) = some (e, w) := by
      cases hl : load f with
      | none => exact ⟨1, 0, by simp [perPackageBody]⟩
      | some d =>
        have hcrash := hsafe f d (List.mem_cons_self f rest) hl
        obtain ⟨errs, herrs⟩ : ∃ errs,
            validate_package_structure (replaceJsonAll f) d = some errs := by
          cases hq : validate_package_structure (replaceJsonAll f) d with
          | none => exact absurd hq hcrash
          | some errs => exact ⟨errs, rfl⟩
        by_cases he : errs = []
        · subst he
          obtain ⟨vs, hvs⟩ := structure_ok_versions_obj _ _ herrs
          exact ⟨(versionsLoop oracle (replaceJsonAll f) vs).1.length,
            (versionsLoop oracle (replaceJsonAll f) vs).2.length,
            by simp [perPackageBody, herrs, validate_package_versions, hvs]⟩
        · exact ⟨errs.length, 0,
            by simp [perPackageBody, herrs, List.isEmpty_iff, he]⟩
    obtain ⟨e, w, he2⟩ := hbody
    exact ⟨e + e', w + w', by simp [processPackages, he2, ih']⟩

/-- Claim C5 (confirmed): on registries none of whose loaded descriptors make
structure validation raise the uncaught `TypeError` (a `latest` value that is
an array or object -- on such a descriptor `main` does not return an exit
status at all), whenever the index loads and the packages directory exists,
`main` terminates normally with exit code 0 exactly when the total error
count (consistency errors plus per-package errors) is zero -- the warning
count `w` is unconstrained, so warnings alone never cause exit 1; when the
index fails to load or the directory is missing, the exit code is 1. -/
theorem c5_exit_code (oracle : JVal → HeadOutcome) (indexData : Option (List String))
    (packagesDirExists : Bool) (dirListing : List String)
    (load : String → Option (List (String × JVal)))
    (hsafe : ∀ f d, f ∈ dirListing.filter endsWithJson → load f = some d →
        validate_package_structure (replaceJsonAll f) d ≠ none) :
    match indexData, packagesDirExists with
    | some indexKeys, true =>
        ∃ e w, processPackages oracle load (dirListing.filter endsWithJson) = some (e, w)
          ∧ main oracle (some indexKeys) true dirListing load
              = some (if (validate_index_consistency indexKeys
                    (dirListing.filter endsWithJson)).length + e = 0 then 0 else 1)
    | _, _ =>
        main oracle indexData packagesDirExists dirListing load = some 1 := by
  cases indexData with
  | none => rfl
  | some indexKeys =>
    cases packagesDirExists with
    | false => rfl
    | true =>
      obtain ⟨e, w, he⟩ := processPackages_total oracle load
        (dirListing.filter endsWithJson) hsafe
      refine ⟨e, w, he, ?_⟩
      simp only [main, he]
      by_cases h0 : (validate_index_consistency indexKeys
          (dirListing.filter endsWithJson)).length + e = 0
      · simp [h0]
      · simp [h0, Nat.pos_of_ne_zero h0]

/-- Witness for C5 at scenario 4's registry (whose single descriptor does not
make structure validation raise). -/
theorem c5_exit_code_witness :
    ∃ e w, processPackages timeoutOracle scen4Load (["foo.json"].filter endsWithJson)
        = some (e, w)
      ∧ main timeoutOracle (some ["foo"]) true ["foo.json"] scen4Load
          = some (if (validate_index_consistency ["foo"]
                (["foo.json"].filter endsWithJson)).length + e = 0 then 0 else 1) :=
  c5_exit_code timeoutOracle (some ["foo"]) true ["foo.json"] scen4Load
    (by
      intro f d hmem hf
      rw [List.mem_filter] at hmem
      have hfeq : f = "foo.json" := by simpa using hmem.1
      subst hfeq
      have hd : scen4Data = d := by
        have h2 : some scen4Data = some d := hf
        exact Option.some.inj h2
      subst hd
      decide)

/-- Claim C6 (confirmed): when a loaded package has structure errors, the
driver counts exactly their number (with zero warnings) and skips version
validation entirely -- the per-package result does not depend on the URL
oracle; in particular, spec scenario 4 (a descriptor whose `versions.latest`
is a dangling `"2.0"`) yields exactly one structure error and exit code 1,
for every oracle. -/
theorem c6_structure_errors_skip_versions (oracle oracle' : JVal → HeadOutcome)
    (load : String → Option (List (String × JVal))) (f : String)
    (package_data : List (String × JVal)) (structure_errors : List String)
    (hl : load f = some package_data)
    (hse : validate_package_structure (replaceJsonAll f) package_data
        = some structure_errors)
    (hne : structure_errors ≠ []) :
    perPackageBody oracle (replaceJsonAll f) (load f)
      = some (structure_errors.length, 0) ∧
    perPackageBody oracle (replaceJsonAll f) (load f)
      = perPackageBody oracle' (replaceJsonAll f) (load f) ∧
    validate_package_structure "foo" scen4Data
      = some [latestNotFoundMsg (JVal.str "2.0")] ∧
    main timeoutOracle (some ["foo"]) true ["foo.json"] scen4Load = some 1 ∧
    (∀ o : JVal → HeadOutcome,
        main o (some ["foo"]) true ["foo.json"] scen4Load = some 1) := by
  have key : ∀ o : JVal → HeadOutcome,
      perPackageBody o (replaceJsonAll f) (load f)
        = some (structure_errors.length, 0) := by
    intro o
    rw [hl]
    simp [perPackageBody, hse, List.isEmpty_iff, hne]
  exact ⟨key oracle, (key oracle).trans (key oracle').symm, rfl, rfl, fun o => rfl⟩

/-- Witness for C6 at scenario 4's package file. -/
theorem c6_structure_errors_skip_versions_witness :
    perPackageBody timeoutOracle (replaceJsonAll "foo.json") (scen4Load "foo.json")
      = some (([latestNotFoundMsg (JVal.str "2.0")]).length, 0) :=
  (c6_structure_errors_skip_versions timeoutOracle okOracle scen4Load "foo.json"
    scen4Data [latestNotFoundMsg (JVal.str "2.0")] rfl rfl (by decide)).1

/-- Claim C8 (confirmed): a failed index load or a missing packages directory
terminates with exit code 1 without consulting any package (the result does
not depend on the oracle, the loader, or the directory listing), whereas a
failed load of an individual package file adds exactly one error and leaves
the remaining packages' counts intact -- provided none of the remaining
packages' descriptors makes structure validation raise the uncaught
`TypeError`, which would abort the loop instead. -/
theorem c8_load_failures (oracle oracle' : JVal → HeadOutcome)
    (load load' : String → Option (List (String × JVal)))
    (dirListing dirListing' : List String) (packagesDirExists : Bool)
    (indexKeys : List String) (f : String) (rest : List String)
    (hf : load f = none)
    (hrest : ∀ g d, g ∈ rest → load g = some d →
        validate_package_structure (replaceJsonAll g) d ≠ none) :
    main oracle none packagesDirExists dirListing load = some 1 ∧
    main oracle none packagesDirExists dirListing load
      = main oracle' none packagesDirExists dirListing' load' ∧
    main oracle (some indexKeys) false dirListing load = some 1 ∧
    main oracle (some indexKeys) false dirListing load
      = main oracle' (some indexKeys) false dirListing' load' ∧
    (∃ e w, processPackages oracle load rest = some (e, w)
        ∧ processPackages oracle load (f :: rest) = some (1 + e, w)) := by
  refine ⟨rfl, rfl, rfl, rfl, ?_⟩
  obtain ⟨e, w, he⟩ := processPackages_total oracle load rest hrest
  refine ⟨e, w, he, ?_⟩
  simp [processPackages, hf, he, perPackageBody]

/-- Witness for C8: a package file that fails to load counts one error. -/
theorem c8_load_failures_witness :
    ∃ e w, processPackages timeoutOracle scen4Load [] = some (e, w)
      ∧ processPackages timeoutOracle scen4Load ["missing.json"] = some (1 + e, w) :=
  (c8_load_failures timeoutOracle okOracle scen4Load scen4Load [] [] true ["foo"]
    "missing.json" [] rfl (fun g _ hg => absurd hg (List.not_mem_nil g))).2.2.2.2

end Rainmeas
